import Mathlib

/-!
Verification of the data-cleaning pipeline and filter engine of
`dashboard_google_play.py` (a Google Play Store analytics dashboard).

The script loads a CSV of app metadata, removes duplicate rows, coerces the
decorated string columns `Installs`, `Price`, `Reviews`, `Size` to numbers
(`pd.to_numeric(errors='coerce')`, i.e. unparseable text becomes null),
derives the `Type` column from `Price`, drops rows whose `Installs`,
`Rating` or `Price` is null, and then filters the cleaned table by the
sidebar criteria (category, type, price range, rating range, installs
range) and computes summary statistics over the filtered subset.

Numbers are embedded as rationals (`ℚ`); a pandas null (`NaN`) in a column
is embedded as `none` of an `Option` type.  `mkRat` is used to build
rational values so that all definitions evaluate by kernel reduction.
-/

/-- Numeric value of a list of decimal digit characters, most significant
first (the usual positional reading used when a numeral string is parsed). -/
def digitsVal (cs : List Char) : ℕ :=
  cs.foldl (fun n c => 10 * n + (c.toNat - '0'.toNat)) 0

/-- Parse an unsigned numeral, as `float(...)` / `pd.to_numeric` does for the
strings this pipeline produces: a non-empty run of digits, optionally with a
single decimal point (digits may be absent on one side of the point, not
both).  Returns the numerator/denominator pair of its value, or `none` when
the text is not numeric. -/
def parseNumCore (cs : List Char) : Option (ℕ × ℕ) :=
  let intPart := cs.takeWhile Char.isDigit
  let rest := cs.dropWhile Char.isDigit
  match rest with
  | [] => if intPart.isEmpty then none else some (digitsVal intPart, 1)
  | '.' :: frac =>
    if frac.all Char.isDigit && !(intPart.isEmpty && frac.isEmpty) then
      some (digitsVal intPart * 10 ^ frac.length + digitsVal frac, 10 ^ frac.length)
    else none
  | _ => none

/-- Embedding of `pd.to_numeric(s, errors='coerce')` on one cell: parse the
string as a (possibly negative, possibly fractional) number, `none` (pandas
`NaN`) when it does not parse. -/
def parseNum (s : String) : Option ℚ :=
  if s.data.head? = some '-' then
    (parseNumCore s.data.tail).map (fun p => mkRat (-(p.1 : ℤ)) p.2)
  else
    (parseNumCore s.data).map (fun p => mkRat (p.1 : ℤ) p.2)

/-- Embedding of `Series.str.replace(c, '', regex=False)` on one cell: remove
every occurrence of the character `c`, wherever it occurs in the string. -/
def removeChar (c : Char) (s : String) : String :=
  String.mk (s.data.filter (fun x => x ≠ c))

/-- The `Installs` column transform: drop every `'+'`, then every `','`, then
coerce to a number (lines 25-28 of the script). -/
def parse_installs (s : String) : Option ℚ :=
  parseNum (removeChar ',' (removeChar '+' s))

/-- The `Price` column transform: drop every `'$'`, then coerce to a number
(lines 31-33 of the script). -/
def parse_price (s : String) : Option ℚ :=
  parseNum (removeChar '$' s)

/-- The `Size` column transform: drop every `'M'`, then every `'k'`, then coerce
to a number (lines 43-46 of the script); no unit conversion is applied. -/
def parse_size (s : String) : Option ℚ :=
  parseNum (removeChar 'k' (removeChar 'M' s))

/-- The derived `Type` column. -/
inductive AppType where
  | Free
  | Paid
deriving DecidableEq, Repr

/-- The `Type` derivation (line 39): `'Paid' if x > 0 else 'Free'`, where a null
price compares false against `0` and therefore yields `Free`. -/
def derive_type (p : Option ℚ) : AppType :=
  match p with
  | some q => if 0 < q then AppType.Paid else AppType.Free
  | none => AppType.Free

/-- One raw CSV row, restricted to the columns the script inspects.
`rating` is already numeric-or-null as produced by the CSV reader (the
script never transforms `Rating`); the other numeric columns arrive as
decorated strings. -/
structure RawRecord where
  app : String
  category : String
  rating : Option ℚ
  reviews : String
  size : String
  installs : String
  price : String
deriving DecidableEq, Repr

/-- One row of the transformed table: every numeric column is a number or
null, and `type` has been derived from `price`. -/
structure ParsedRecord where
  app : String
  category : String
  rating : Option ℚ
  reviews : Option ℚ
  size : Option ℚ
  installs : Option ℚ
  price : Option ℚ
  type : AppType
deriving DecidableEq, Repr

/-- The per-row part of `load_and_transform_data`: column coercions (steps
2-6 of the script).  `type` is computed from the parsed price. -/
def transformRow (r : RawRecord) : ParsedRecord :=
  let p := parse_price r.price
  { app := r.app
    category := r.category
    rating := r.rating
    reviews := parseNum r.reviews
    size := parse_size r.size
    installs := parse_installs r.installs
    price := p
    type := derive_type p }

/-- Worker for `deduplicate`: keep a row iff no row equal to it has been
seen before. -/
def dedupAux {α : Type} [DecidableEq α] (seen : List α) : List α → List α
  | [] => []
  | x :: xs => if x ∈ seen then dedupAux seen xs else x :: dedupAux (x :: seen) xs

/-- Embedding of `df.drop_duplicates()` (line 21): remove every row that is
fully identical to an earlier row; the first occurrence is kept and the
order of the remaining rows is preserved. -/
def deduplicate {α : Type} [DecidableEq α] (l : List α) : List α :=
  dedupAux [] l

/-- Embedding of `df.dropna(subset=['Installs', 'Rating', 'Price'])`
(line 49): keep exactly the rows whose three critical columns are
non-null. -/
def drop_incomplete (l : List ParsedRecord) : List ParsedRecord :=
  l.filter (fun r => r.installs.isSome && r.rating.isSome && r.price.isSome)

/-- The whole `load_and_transform_data` pipeline after the CSV read:
deduplicate the raw rows, transform the columns row by row, then drop the
incomplete rows. -/
def load_and_transform_data (raws : List RawRecord) : List ParsedRecord :=
  drop_incomplete ((deduplicate raws).map transformRow)

/-- The sidebar filter state.  `category = none` plays the role of the
`'Todas'` wildcard and `type = none` of `'Todos'`; the three sliders always
carry a concrete inclusive range. -/
structure FilterSpec where
  category : Option String
  type : Option AppType
  priceRange : ℚ × ℚ
  ratingRange : ℚ × ℚ
  installsRange : ℚ × ℚ

/-- One pandas range test `lo <= column <= hi` on a nullable cell: a null
cell compares false (`NaN` comparisons are false in pandas), so null rows
never pass a range filter. -/
def rangeOk (v : Option ℚ) (lo hi : ℚ) : Bool :=
  match v with
  | some x => decide (lo ≤ x) && decide (x ≤ hi)
  | none => false

/-- A row passes the combined filter iff it passes each specified criterion
(lines 110-123 of the script, read as one conjunction). -/
def filterMatch (s : FilterSpec) (r : ParsedRecord) : Bool :=
  (match s.category with | none => true | some c => decide (r.category = c)) &&
  (match s.type with | none => true | some t => decide (r.type = t)) &&
  rangeOk r.price s.priceRange.1 s.priceRange.2 &&
  rangeOk r.rating s.ratingRange.1 s.ratingRange.2 &&
  rangeOk r.installs s.installsRange.1 s.installsRange.2

/-- Filtering the table by the combined predicate. -/
def applyFilter (s : FilterSpec) (l : List ParsedRecord) : List ParsedRecord :=
  l.filter (filterMatch s)

/-- The filter application exactly as the script sequences it (lines
108-123): category filter if not `'Todas'`, then type filter if not
`'Todos'`, then the three range tests in one conjunction. -/
def applyFiltersSeq (s : FilterSpec) (l : List ParsedRecord) : List ParsedRecord :=
  let l1 := match s.category with
    | none => l
    | some c => l.filter (fun r => decide (r.category = c))
  let l2 := match s.type with
    | none => l1
    | some t => l1.filter (fun r => decide (r.type = t))
  l2.filter (fun r =>
    rangeOk r.price s.priceRange.1 s.priceRange.2 &&
    rangeOk r.rating s.ratingRange.1 s.ratingRange.2 &&
    rangeOk r.installs s.installsRange.1 s.installsRange.2)

/-- One individual filter constraint, for stating how constraints compose. -/
inductive Constraint where
  | category (c : String)
  | ofType (t : AppType)
  | priceRange (lo hi : ℚ)
  | ratingRange (lo hi : ℚ)
  | installsRange (lo hi : ℚ)

/-- Satisfaction of one individual constraint by one row. -/
def Constraint.sat : Constraint → ParsedRecord → Bool
  | .category c, r => decide (r.category = c)
  | .ofType t, r => decide (r.type = t)
  | .priceRange lo hi, r => rangeOk r.price lo hi
  | .ratingRange lo hi, r => rangeOk r.rating lo hi
  | .installsRange lo hi, r => rangeOk r.installs lo hi

/-- Applying one individual constraint to the table. -/
def applyConstraint (c : Constraint) (l : List ParsedRecord) : List ParsedRecord :=
  l.filter c.sat

/-- Embedding of `len(filtered_df)` (line 133). -/
def countRecords (l : List ParsedRecord) : ℕ :=
  l.length

/-- Embedding of `filtered_df['Rating'].mean()` (line 136): pandas skips nulls and
returns `NaN` (here `none`) when no value remains. -/
def meanRating (l : List ParsedRecord) : Option ℚ :=
  let rs := l.filterMap (fun r => r.rating)
  if rs.length = 0 then none else some (rs.sum / (rs.length : ℚ))

/-- Embedding of `filtered_df['Installs'].sum()` (line 140): pandas skips nulls and
returns `0` on an empty column. -/
def sumInstalls (l : List ParsedRecord) : ℚ :=
  (l.filterMap (fun r => r.installs)).sum

/-- Embedding of `len(filtered_df[filtered_df['Type'] == 'Paid'])` (line 144). -/
def paidCount (l : List ParsedRecord) : ℕ :=
  (l.filter (fun r => decide (r.type = AppType.Paid))).length

/-- Embedding of `filtered_df['Category'].value_counts().index[0]` (line 267): the head
of the frequency table, i.e. the first category (in the order the rows are
encountered) whose frequency is maximal; `none` when the table is empty
(the script only evaluates this under a `len > 0` guard). -/
def topCategory (l : List ParsedRecord) : Option String :=
  let cs := l.map (fun r => r.category)
  cs.find? (fun c => decide (∀ c' ∈ cs, cs.count c' ≤ cs.count c))

/-- Maximum of a list of rationals, `none` on the empty list (the value of
`Series.max()` over the non-null cells). -/
def listMax : List ℚ → Option ℚ
  | [] => none
  | x :: xs => some (xs.foldl max x)

/-- Embedding of `filtered_df['Price'].max()`: maximum over the non-null prices. -/
def maxPrice (l : List ParsedRecord) : Option ℚ :=
  listMax (l.filterMap (fun r => r.price))

/-- Embedding of `filtered_df['Rating'].max()`: maximum over the non-null ratings. -/
def maxRating (l : List ParsedRecord) : Option ℚ :=
  listMax (l.filterMap (fun r => r.rating))

/-- Embedding of `filtered_df[filtered_df['Price'] == filtered_df['Price'].max()]`
(line 271): rows achieving the maximum price; when the maximum is null
(empty column) every comparison is false and the result is empty. -/
def mostExpensive (l : List ParsedRecord) : List ParsedRecord :=
  match maxPrice l with
  | none => []
  | some m => l.filter (fun r => decide (r.price = some m))

/-- Embedding of `filtered_df[filtered_df['Rating'] == filtered_df['Rating'].max()]`
(line 279): rows achieving the maximum rating. -/
def bestRated (l : List ParsedRecord) : List ParsedRecord :=
  match maxRating l with
  | none => []
  | some m => l.filter (fun r => decide (r.rating = some m))

/-- The displayed most-expensive app, `most_expensive['App'].iloc[0]` with
its `len > 0` fallback (lines 272-275): `none` when no row achieves the
maximum price. -/
def mostExpensiveApp (l : List ParsedRecord) : Option ParsedRecord :=
  (mostExpensive l).head?

/-- The displayed best-rated app with its fallback (lines 280-283). -/
def bestRatedApp (l : List ParsedRecord) : Option ParsedRecord :=
  (bestRated l).head?

/-- Modelled from the spec: `parse_price` as the spec describes it, namely
"strips a leading `$` if present, then parses as float; returns null on
failure".  Kept separate from the source-faithful `parse_price` (which
removes every `$`) so the two can be compared. -/
def parse_price_specModel (s : String) : Option ℚ :=
  match s.data with
  | '$' :: rest => parseNum (String.mk rest)
  | _ => parseNum s

/-- Modelled from the spec: `parse_size` as the spec describes it, namely
"strips trailing unit suffix `M` or `k` ... returns null if the remaining
text does not parse as a number".  Kept separate from the source-faithful
`parse_size` (which removes every `M` and `k`) so the two can be
compared. -/
def parse_size_specModel (s : String) : Option ℚ :=
  match s.data.getLast? with
  | some 'M' => parseNum (String.mk s.data.dropLast)
  | some 'k' => parseNum (String.mk s.data.dropLast)
  | _ => parseNum s

/-- Modelled from the spec: the record-count summary statistic returning
the "undefined"/null sentinel on an empty subset, as the claim reads it.
The script's count (`countRecords`) is a plain integer instead. -/
def count_specModel (l : List ParsedRecord) : Option ℕ :=
  if l.isEmpty then none else some l.length

/-- A sample free app row, used as concrete input in witnesses. -/
def rawFree : RawRecord :=
  { app := "A", category := "TOOLS", rating := some (mkRat 21 5),
    reviews := "100", size := "19M", installs := "10,000+", price := "$0" }

/-- A sample paid app row, used as concrete input in witnesses. -/
def rawPaid : RawRecord :=
  { app := "P", category := "GAME", rating := some (mkRat 9 2),
    reviews := "30", size := "512k", installs := "1,000+", price := "$4.99" }

/-- A sample row whose rating cell is null, used as concrete input in
witnesses. -/
def rawBad : RawRecord :=
  { app := "N", category := "TOOLS", rating := none,
    reviews := "5", size := "Varies with device", installs := "100+", price := "$0" }

/-- A sample row whose size cell does not parse while the critical columns
do, used as concrete input in witnesses. -/
def rawVar : RawRecord :=
  { app := "V", category := "SOCIAL", rating := some 4,
    reviews := "1", size := "Varies with device", installs := "500+", price := "0" }

/-- A permissive filter state (no category or type constraint, wide
ranges), used as concrete input in witnesses. -/
def wideSpec : FilterSpec :=
  { category := none, type := none, priceRange := (0, 50),
    ratingRange := (0, 5), installsRange := (0, 10000000) }


/-- Concrete rows for exercising the top-category tie-break: category `A`
with a low rating, then `B` and `A` with high ratings. -/
def rawTieA1 : RawRecord :=
  { app := "a1", category := "A", rating := some 1,
    reviews := "1", size := "1M", installs := "10+", price := "$0" }

/-- Second concrete tie-break row (category `B`, high rating). -/
def rawTieB : RawRecord :=
  { app := "b", category := "B", rating := some 4,
    reviews := "1", size := "1M", installs := "10+", price := "$0" }

/-- Third concrete tie-break row (category `A` again, high rating). -/
def rawTieA2 : RawRecord :=
  { app := "a2", category := "A", rating := some 4,
    reviews := "1", size := "1M", installs := "10+", price := "$0" }

/-- A filter keeping only ratings in `[3, 5]`, used with the tie-break
rows. -/
def tieSpec : FilterSpec :=
  { category := none, type := none, priceRange := (0, 50),
    ratingRange := (3, 5), installsRange := (0, 1000000) }


section DedupLemmas

variable {α : Type} [DecidableEq α]

theorem dedupAux_sublist (seen l : List α) : (dedupAux seen l).Sublist l := by
  induction l generalizing seen with
  | nil => simp [dedupAux]
  | cons a t ih =>
    simp only [dedupAux]
    by_cases ha : a ∈ seen
    · rw [if_pos ha]
      exact (ih seen).trans (List.sublist_cons_self a t)
    · rw [if_neg ha]
      exact (ih (a :: seen)).cons₂ a

theorem mem_dedupAux (seen l : List α) (x : α) :
    x ∈ dedupAux seen l ↔ x ∈ l ∧ x ∉ seen := by
  induction l generalizing seen with
  | nil => simp [dedupAux]
  | cons a t ih =>
    simp only [dedupAux]
    by_cases ha : a ∈ seen
    · rw [if_pos ha]
      simp only [ih seen, List.mem_cons]
      constructor
      · rintro ⟨h1, h2⟩
        exact ⟨Or.inr h1, h2⟩
      · rintro ⟨h1 | h1, h2⟩
        · exact absurd (h1 ▸ ha) h2
        · exact ⟨h1, h2⟩
    · rw [if_neg ha]
      simp only [List.mem_cons, ih (a :: seen)]
      constructor
      · rintro (rfl | ⟨h1, h2⟩)
        · exact ⟨Or.inl rfl, ha⟩
        · exact ⟨Or.inr h1, fun hs => h2 (Or.inr hs)⟩
      · rintro ⟨h1 | h1, h2⟩
        · exact Or.inl h1
        · by_cases hxa : x = a
          · exact Or.inl hxa
          · exact Or.inr ⟨h1, fun hs => hs.elim hxa h2⟩

theorem dedupAux_nodup (seen l : List α) : (dedupAux seen l).Nodup := by
  induction l generalizing seen with
  | nil => simp [dedupAux]
  | cons a t ih =>
    simp only [dedupAux]
    by_cases ha : a ∈ seen
    · rw [if_pos ha]; exact ih seen
    · rw [if_neg ha, List.nodup_cons]
      exact ⟨fun hmem => ((mem_dedupAux _ _ _).1 hmem).2 (List.mem_cons_self a seen),
        ih (a :: seen)⟩

theorem dedupAux_eq_self (l : List α) : ∀ seen, l.Nodup → (∀ x ∈ l, x ∉ seen) →
    dedupAux seen l = l := by
  induction l with
  | nil => intro seen _ _; rfl
  | cons a t ih =>
    intro seen hnd hseen
    rw [List.nodup_cons] at hnd
    simp only [dedupAux]
    rw [if_neg (hseen a (List.mem_cons_self a t))]
    congr 1
    refine ih (a :: seen) hnd.2 (fun x hx hmem => ?_)
    rcases List.mem_cons.1 hmem with rfl | hs
    · exact hnd.1 hx
    · exact hseen x (List.mem_cons_of_mem a hx) hs

theorem dedupAux_indexOf_lt (l : List α) : ∀ (seen : List α) (x y : α),
    x ∈ dedupAux seen l → y ∈ dedupAux seen l →
    ((dedupAux seen l).indexOf x < (dedupAux seen l).indexOf y ↔
      l.indexOf x < l.indexOf y) := by
  induction l with
  | nil => intro seen x y hx _; simp [dedupAux] at hx
  | cons a t ih =>
    intro seen x y hx hy
    by_cases ha : a ∈ seen
    · simp only [dedupAux, if_pos ha] at hx hy ⊢
      have hxa : a ≠ x := fun h => ((mem_dedupAux _ _ _).1 hx).2 (h ▸ ha)
      have hya : a ≠ y := fun h => ((mem_dedupAux _ _ _).1 hy).2 (h ▸ ha)
      rw [List.indexOf_cons_ne t hxa, List.indexOf_cons_ne t hya, Nat.succ_lt_succ_iff]
      exact ih seen x y hx hy
    · simp only [dedupAux, if_neg ha] at hx hy ⊢
      by_cases hxa : x = a
      · by_cases hya : y = a
        · rw [hxa, hya]
          omega
        · have h1 : a ≠ y := fun h => hya h.symm
          rw [hxa, List.indexOf_cons_self, List.indexOf_cons_self,
            List.indexOf_cons_ne _ h1, List.indexOf_cons_ne t h1]
          omega
      · have h1 : a ≠ x := fun h => hxa h.symm
        have hx' : x ∈ dedupAux (a :: seen) t := by
          rcases List.mem_cons.1 hx with h | h
          · exact absurd h hxa
          · exact h
        by_cases hya : y = a
        · rw [hya, List.indexOf_cons_self, List.indexOf_cons_self,
            List.indexOf_cons_ne _ h1, List.indexOf_cons_ne t h1]
          omega
        · have h2 : a ≠ y := fun h => hya h.symm
          have hy' : y ∈ dedupAux (a :: seen) t := by
            rcases List.mem_cons.1 hy with h | h
            · exact absurd h hya
            · exact h
          rw [List.indexOf_cons_ne _ h1, List.indexOf_cons_ne t h1,
            List.indexOf_cons_ne _ h2, List.indexOf_cons_ne t h2,
            Nat.succ_lt_succ_iff, Nat.succ_lt_succ_iff]
          exact ih (a :: seen) x y hx' hy'

end DedupLemmas

/-- C9: deduplication is idempotent (running it twice equals running it
once), and it removes exactly the rows fully identical to an earlier row:
the result is a subsequence of the input (relative order preserved), it
keeps exactly the set of input rows, no duplicate is left, and the kept
rows appear in the order of their first occurrences in the input (first
occurrence wins). -/
theorem deduplicate_idempotent_first_wins (l : List RawRecord) (x y : RawRecord) :
    deduplicate (deduplicate l) = deduplicate l
    ∧ (deduplicate l).Sublist l
    ∧ (x ∈ deduplicate l ↔ x ∈ l)
    ∧ (deduplicate l).Nodup
    ∧ (x ∈ deduplicate l → y ∈ deduplicate l →
        ((deduplicate l).indexOf x < (deduplicate l).indexOf y ↔
          l.indexOf x < l.indexOf y)) := by
  refine ⟨?_, dedupAux_sublist [] l, ?_, dedupAux_nodup [] l,
    fun hx hy => dedupAux_indexOf_lt l [] x y hx hy⟩
  · exact dedupAux_eq_self (dedupAux [] l) [] (dedupAux_nodup [] l) (by simp)
  · rw [deduplicate, mem_dedupAux]; simp

/-- Witness for C9 at a concrete duplicated input. -/
theorem deduplicate_idempotent_first_wins_witness :
    deduplicate (deduplicate [rawFree, rawPaid, rawFree]) =
      deduplicate [rawFree, rawPaid, rawFree]
    ∧ ((deduplicate [rawFree, rawPaid, rawFree]).indexOf rawFree <
          (deduplicate [rawFree, rawPaid, rawFree]).indexOf rawPaid ↔
        [rawFree, rawPaid, rawFree].indexOf rawFree <
          [rawFree, rawPaid, rawFree].indexOf rawPaid) :=
  ⟨(deduplicate_idempotent_first_wins [rawFree, rawPaid, rawFree] rawFree rawPaid).1,
    (deduplicate_idempotent_first_wins [rawFree, rawPaid, rawFree] rawFree rawPaid).2.2.2.2
      (by decide) (by decide)⟩

/-- C7: the incompleteness filter keeps a row iff its `installs`, `rating`
and `price` cells are all non-null — a null `size` never causes removal —
and a raw row with a null rating never survives the pipeline, whatever its
other fields hold. -/
theorem drop_incomplete_exact (l : List ParsedRecord) (r : ParsedRecord)
    (raws : List RawRecord) (raw : RawRecord) :
    (r ∈ drop_incomplete l ↔
      r ∈ l ∧ r.installs ≠ none ∧ r.rating ≠ none ∧ r.price ≠ none)
    ∧ (r ∈ l → r.size = none → r.installs ≠ none → r.rating ≠ none →
        r.price ≠ none → r ∈ drop_incomplete l)
    ∧ (raw.rating = none → transformRow raw ∉ load_and_transform_data raws) := by
  have hiff : r ∈ drop_incomplete l ↔
      r ∈ l ∧ r.installs ≠ none ∧ r.rating ≠ none ∧ r.price ≠ none := by
    simp [drop_incomplete, List.mem_filter, Option.isSome_iff_ne_none, and_assoc]
  refine ⟨hiff, fun hm _ h1 h2 h3 => hiff.2 ⟨hm, h1, h2, h3⟩, fun hnone hmem => ?_⟩
  have h := (List.mem_filter.1 hmem).2
  simp [transformRow, hnone] at h

/-- Witness for C7 at concrete rows: a row with null size but intact
critical columns is kept; a raw row with a null rating is dropped. -/
theorem drop_incomplete_exact_witness :
    transformRow rawVar ∈ drop_incomplete [transformRow rawVar]
    ∧ transformRow rawBad ∉ load_and_transform_data [rawBad] :=
  ⟨(drop_incomplete_exact [transformRow rawVar] (transformRow rawVar) [] rawBad).2.1
      (by decide) (by decide) (by decide) (by decide) (by decide),
    (drop_incomplete_exact [] (transformRow rawBad) [rawBad] rawBad).2.2 (by decide)⟩

/-- Every row of the transformed table comes from a deduplicated raw row
and has non-null critical columns. -/
theorem mem_load (raws : List RawRecord) (r : ParsedRecord)
    (h : r ∈ load_and_transform_data raws) :
    (∃ raw ∈ deduplicate raws, transformRow raw = r)
    ∧ r.installs.isSome = true ∧ r.rating.isSome = true ∧ r.price.isSome = true := by
  rw [load_and_transform_data, drop_incomplete] at h
  obtain ⟨hm, hp⟩ := List.mem_filter.1 h
  rw [List.mem_map] at hm
  simp only [Bool.and_eq_true] at hp
  exact ⟨hm, hp.1.1, hp.1.2, hp.2⟩

/-- C3: on every row retained by the pipeline the price is non-null and
the derived type is `Paid` exactly when the price is positive, `Free`
otherwise; the consistency is preserved by every filter application. -/
theorem type_consistent_with_price (raws : List RawRecord) (r : ParsedRecord)
    (s : FilterSpec) :
    (r ∈ load_and_transform_data raws →
      ∃ p, r.price = some p ∧ (r.type = AppType.Paid ↔ 0 < p)
        ∧ (r.type = AppType.Free ↔ ¬ 0 < p))
    ∧ (r ∈ applyFilter s (load_and_transform_data raws) →
      ∃ p, r.price = some p ∧ (r.type = AppType.Paid ↔ 0 < p)
        ∧ (r.type = AppType.Free ↔ ¬ 0 < p)) := by
  have main : r ∈ load_and_transform_data raws →
      ∃ p, r.price = some p ∧ (r.type = AppType.Paid ↔ 0 < p)
        ∧ (r.type = AppType.Free ↔ ¬ 0 < p) := by
    intro h
    obtain ⟨⟨raw, _, hr⟩, _, _, hp⟩ := mem_load raws r h
    rw [← hr] at hp ⊢
    obtain ⟨p, hp'⟩ := Option.isSome_iff_exists.1 hp
    have hpr : (transformRow raw).price = parse_price raw.price := rfl
    have hty : (transformRow raw).type = derive_type (parse_price raw.price) := rfl
    rw [hpr] at hp'
    refine ⟨p, by rw [hpr, hp'], ?_, ?_⟩
    · rw [hty, hp', derive_type]
      by_cases h0 : 0 < p <;> simp [h0]
    · rw [hty, hp', derive_type]
      by_cases h0 : 0 < p <;> simp [h0]
  exact ⟨main, fun h => main (List.mem_filter.1 h).1⟩

/-- Witness for C3 at a concrete paid row. -/
theorem type_consistent_with_price_witness :
    ∃ p, (transformRow rawPaid).price = some p
      ∧ ((transformRow rawPaid).type = AppType.Paid ↔ 0 < p)
      ∧ ((transformRow rawPaid).type = AppType.Free ↔ ¬ 0 < p) :=
  (type_consistent_with_price [rawPaid] (transformRow rawPaid) wideSpec).1 (by decide)

/-- A range test passes iff the cell is non-null and lies inclusively
between the bounds. -/
theorem rangeOk_iff (v : Option ℚ) (lo hi : ℚ) :
    rangeOk v lo hi = true ↔ ∃ x, v = some x ∧ lo ≤ x ∧ x ≤ hi := by
  cases v <;> simp [rangeOk]

/-- The sequential filter application of the script equals one filter by
the conjunction of all criteria. -/
theorem applyFiltersSeq_eq (s : FilterSpec) (l : List ParsedRecord) :
    applyFiltersSeq s l = applyFilter s l := by
  obtain ⟨sc, st, pr, rr, ir⟩ := s
  rcases sc with _ | c <;> rcases st with _ | t <;>
    simp only [applyFiltersSeq, applyFilter, List.filter_filter] <;>
    refine List.filter_congr (fun x _ => ?_) <;>
    simp only [filterMatch] <;>
    cases rangeOk x.price pr.1 pr.2 <;>
    cases rangeOk x.rating rr.1 rr.2 <;>
    cases rangeOk x.installs ir.1 ir.2 <;>
    first
      | rfl
      | (cases decide (x.category = c) <;> rfl)
      | (cases decide (x.type = t) <;> rfl)
      | (cases decide (x.category = c) <;> cases decide (x.type = t) <;> rfl)

/-- C6: filtering commutes across constraints, sequential application
equals simultaneous conjunction, filtering is idempotent, and a row is in
the filtered set iff it is in the table and satisfies every specified
criterion, the range bounds being inclusive. -/
theorem filter_commutative_idempotent_conjunctive (l : List ParsedRecord)
    (c1 c2 : Constraint) (s : FilterSpec) (r : ParsedRecord) :
    applyConstraint c1 (applyConstraint c2 l) = applyConstraint c2 (applyConstraint c1 l)
    ∧ applyConstraint c1 (applyConstraint c2 l) =
        l.filter (fun x => c1.sat x && c2.sat x)
    ∧ applyConstraint c1 (applyConstraint c1 l) = applyConstraint c1 l
    ∧ applyFilter s (applyFilter s l) = applyFilter s l
    ∧ applyFiltersSeq s l = applyFilter s l
    ∧ (r ∈ applyFilter s l ↔ r ∈ l
        ∧ (∀ c, s.category = some c → r.category = c)
        ∧ (∀ t, s.type = some t → r.type = t)
        ∧ (∃ x, r.price = some x ∧ s.priceRange.1 ≤ x ∧ x ≤ s.priceRange.2)
        ∧ (∃ x, r.rating = some x ∧ s.ratingRange.1 ≤ x ∧ x ≤ s.ratingRange.2)
        ∧ (∃ x, r.installs = some x ∧ s.installsRange.1 ≤ x ∧ x ≤ s.installsRange.2)) := by
  refine ⟨?_, ?_, ?_, ?_, applyFiltersSeq_eq s l, ?_⟩
  · simp only [applyConstraint, List.filter_filter]
    exact List.filter_congr (fun x _ => Bool.and_comm _ _)
  · simp only [applyConstraint, List.filter_filter]
  · simp only [applyConstraint, List.filter_filter]
    exact List.filter_congr (fun x _ => Bool.and_self _)
  · simp only [applyFilter, List.filter_filter]
    exact List.filter_congr (fun x _ => Bool.and_self _)
  · rw [applyFilter, List.mem_filter]
    obtain ⟨sc, st, pr, rr, ir⟩ := s
    simp only [filterMatch, Bool.and_eq_true, decide_eq_true_eq, rangeOk_iff]
    cases sc <;> cases st <;> simp <;> tauto

/-- C1 counterexample: on the empty filtered subset the script's record
count, installs sum and paid count are the plain number `0`, not the
null/"undefined" sentinel the claim asserts for every statistic (shown
against the spec-modelled sentinel-valued count). -/
theorem count_stat_not_sentinel_on_empty :
    applyFilter wideSpec (load_and_transform_data []) = []
    ∧ countRecords (applyFilter wideSpec (load_and_transform_data [])) = 0
    ∧ count_specModel (applyFilter wideSpec (load_and_transform_data [])) = none
    ∧ some (countRecords (applyFilter wideSpec (load_and_transform_data []))) ≠
        count_specModel (applyFilter wideSpec (load_and_transform_data []))
    ∧ sumInstalls (applyFilter wideSpec (load_and_transform_data [])) = 0
    ∧ paidCount (applyFilter wideSpec (load_and_transform_data [])) = 0 := by
  refine ⟨rfl, rfl, rfl, ?_, rfl, rfl⟩
  decide

/-- C1 (amended): on an empty filtered subset no summary statistic fails:
mean rating, top category, the most-expensive row and the best-rated row
all yield the null/undefined sentinel, while the record count, installs
sum and paid count yield the defined value `0`. -/
theorem empty_filter_stats_defined (raws : List RawRecord) (s : FilterSpec)
    (h : applyFilter s (load_and_transform_data raws) = []) :
    countRecords (applyFilter s (load_and_transform_data raws)) = 0
    ∧ meanRating (applyFilter s (load_and_transform_data raws)) = none
    ∧ sumInstalls (applyFilter s (load_and_transform_data raws)) = 0
    ∧ paidCount (applyFilter s (load_and_transform_data raws)) = 0
    ∧ topCategory (applyFilter s (load_and_transform_data raws)) = none
    ∧ mostExpensiveApp (applyFilter s (load_and_transform_data raws)) = none
    ∧ bestRatedApp (applyFilter s (load_and_transform_data raws)) = none := by
  rw [h]
  exact ⟨rfl, rfl, rfl, rfl, rfl, rfl, rfl⟩

/-- Witness for the amended C1 at a concrete empty table. -/
theorem empty_filter_stats_defined_witness :
    countRecords (applyFilter wideSpec (load_and_transform_data [])) = 0
    ∧ meanRating (applyFilter wideSpec (load_and_transform_data [])) = none
    ∧ sumInstalls (applyFilter wideSpec (load_and_transform_data [])) = 0
    ∧ paidCount (applyFilter wideSpec (load_and_transform_data [])) = 0
    ∧ topCategory (applyFilter wideSpec (load_and_transform_data [])) = none
    ∧ mostExpensiveApp (applyFilter wideSpec (load_and_transform_data [])) = none
    ∧ bestRatedApp (applyFilter wideSpec (load_and_transform_data [])) = none :=
  empty_filter_stats_defined [] wideSpec (by decide)

/-- C2: the scenario row with installs cell `"10,000+"`, price cell
`"$0"` and rating `4.2` normalizes to a retained row with installs
`10000`, price `0`, type `Free` and rating `4.2` (whatever the remaining
raw fields hold), and that row passes a filter whose installs range is
`[0, 20000]` and fails one whose installs range is `[20000, 100000]`. -/
theorem scenario_ten_thousand_free (app cat rev sz : String) :
    load_and_transform_data
        [{ app := app, category := cat, rating := some (mkRat 21 5),
           reviews := rev, size := sz, installs := "10,000+", price := "$0" }] =
      [{ app := app, category := cat, rating := some (mkRat 21 5),
         reviews := parseNum rev, size := parse_size sz,
         installs := some 10000, price := some 0, type := AppType.Free }]
    ∧ filterMatch
        { category := none, type := none, priceRange := (0, 50),
          ratingRange := (0, 5), installsRange := (0, 20000) }
        { app := app, category := cat, rating := some (mkRat 21 5),
          reviews := parseNum rev, size := parse_size sz,
          installs := some 10000, price := some 0, type := AppType.Free } = true
    ∧ filterMatch
        { category := none, type := none, priceRange := (0, 50),
          ratingRange := (0, 5), installsRange := (20000, 100000) }
        { app := app, category := cat, rating := some (mkRat 21 5),
          reviews := parseNum rev, size := parse_size sz,
          installs := some 10000, price := some 0, type := AppType.Free } = false := by
  have h1 : parse_installs "10,000+" = some 10000 := by decide
  have h2 : parse_price "$0" = some 0 := by decide
  have h3 : rangeOk (some (0 : ℚ)) 0 50 = true := by decide
  have h4 : rangeOk (some (mkRat 21 5)) 0 5 = true := by decide
  have h5 : rangeOk (some (10000 : ℚ)) 0 20000 = true := by decide
  have h6 : rangeOk (some (10000 : ℚ)) 20000 100000 = false := by decide
  refine ⟨?_, ?_, ?_⟩
  · simp [load_and_transform_data, deduplicate, dedupAux, transformRow, drop_incomplete,
      h1, h2, derive_type]
  · simp [filterMatch, h3, h4, h5]
  · simp [filterMatch, h6]

/-- Every character of a string accepted by the core numeral parser is a
digit or the decimal point. -/
theorem parseNumCore_chars (cs : List Char) (v : ℕ × ℕ)
    (h : parseNumCore cs = some v) : ∀ c ∈ cs, c.isDigit = true ∨ c = '.' := by
  intro c hc
  rw [← List.takeWhile_append_dropWhile Char.isDigit cs] at hc
  rcases List.mem_append.1 hc with h1 | h1
  · exact Or.inl (List.mem_takeWhile_imp h1)
  · simp only [parseNumCore] at h
    split at h
    · rename_i heq
      rw [heq] at h1
      simp at h1
    · rename_i frac heq
      rw [heq] at h1
      split at h
      · rename_i hcond
        rw [Bool.and_eq_true] at hcond
        rcases List.mem_cons.1 h1 with rfl | hf
        · exact Or.inr rfl
        · exact Or.inl (List.all_eq_true.1 hcond.1 c hf)
      · cases h
    · cases h

/-- Every character of a string accepted by the numeral parser is a digit,
the decimal point or a leading minus sign. -/
theorem parseNum_chars (s : String) (q : ℚ) (h : parseNum s = some q) :
    ∀ c ∈ s.data, c.isDigit = true ∨ c = '.' ∨ c = '-' := by
  intro c hc
  unfold parseNum at h
  split at h
  · rename_i hhead
    obtain ⟨v, hv, _⟩ := Option.map_eq_some'.1 h
    rcases hd : s.data with _ | ⟨a, t⟩
    · rw [hd] at hc; simp at hc
    · rw [hd] at hhead hc hv
      simp only [List.head?, Option.some.injEq] at hhead
      subst hhead
      rcases List.mem_cons.1 hc with rfl | ht
      · exact Or.inr (Or.inr rfl)
      · have hv' : parseNumCore t = some v := hv
        rcases parseNumCore_chars _ _ hv' c ht with hd2 | hd2
        · exact Or.inl hd2
        · exact Or.inr (Or.inl hd2)
  · obtain ⟨v, hv, _⟩ := Option.map_eq_some'.1 h
    rcases parseNumCore_chars _ _ hv c hc with hd | hd
    · exact Or.inl hd
    · exact Or.inr (Or.inl hd)

/-- Removing a character a string does not contain leaves it unchanged. -/
theorem removeChar_eq_self (c : Char) (s : String) (h : ∀ x ∈ s.data, x ≠ c) :
    removeChar c s = s := by
  obtain ⟨d⟩ := s
  show String.mk (d.filter (fun x => x ≠ c)) = String.mk d
  exact congrArg String.mk (List.filter_eq_self.2 (fun a ha => decide_eq_true (h a ha)))

/-- Removing the same character twice equals removing it once. -/
theorem removeChar_idem (c : Char) (s : String) :
    removeChar c (removeChar c s) = removeChar c s := by
  obtain ⟨d⟩ := s
  show String.mk ((d.filter (fun x => x ≠ c)).filter (fun x => x ≠ c))
      = String.mk (d.filter (fun x => x ≠ c))
  rw [List.filter_filter]
  exact congrArg String.mk (List.filter_congr (fun a _ => Bool.and_self _))

/-- Removals of two characters commute. -/
theorem removeChar_comm (a b : Char) (s : String) :
    removeChar a (removeChar b s) = removeChar b (removeChar a s) := by
  obtain ⟨d⟩ := s
  show String.mk ((d.filter (fun x => x ≠ b)).filter (fun x => x ≠ a))
      = String.mk ((d.filter (fun x => x ≠ a)).filter (fun x => x ≠ b))
  rw [List.filter_filter, List.filter_filter]
  exact congrArg String.mk (List.filter_congr (fun x _ => Bool.and_comm _ _))

/-- C4 counterexample: on the input `"$$0"` the code removes both dollar
signs and parses `0.0`, while the claimed strip-one-leading-dollar reading
yields null; the two disagree. -/
theorem parse_price_spec_divergence :
    parse_price "$$0" = some 0 ∧ parse_price_specModel "$$0" = none
    ∧ parse_price "$$0" ≠ parse_price_specModel "$$0" := by decide

/-- C4 (amended): `parse_price` removes every `$` character wherever it
occurs (so in particular a leading one), then parses the remainder,
returning null on parse failure; on `"$<decimal>"` it returns the decimal
value, and `"0"` returns `0`. -/
theorem parse_price_strips_every_dollar (s : String) (q : ℚ) :
    (parseNum s = some q → parse_price (String.mk ('$' :: s.data)) = some q)
    ∧ parse_price (removeChar '$' s) = parse_price s
    ∧ (parseNum (removeChar '$' s) = none → parse_price s = none)
    ∧ parse_price "0" = some 0
    ∧ parse_price "$4.99" = some (mkRat 499 100) := by
  refine ⟨?_, ?_, fun h => h, by decide, by decide⟩
  · intro h
    have hch : ∀ x ∈ s.data, x ≠ '$' := by
      intro x hx he
      subst he
      rcases parseNum_chars s q h _ hx with hd | hd | hd <;> exact absurd hd (by decide)
    have h1 : (String.mk ('$' :: s.data)).data.filter (fun x => x ≠ '$') =
        s.data.filter (fun x => x ≠ '$') := by simp
    have h2 : s.data.filter (fun x => x ≠ '$') = s.data :=
      List.filter_eq_self.2 (fun a ha => decide_eq_true (hch a ha))
    show parseNum (String.mk ((String.mk ('$' :: s.data)).data.filter (fun x => x ≠ '$'))) = some q
    rw [h1, h2]
    have h3 : String.mk s.data = s := by cases s; rfl
    rw [h3]
    exact h
  · show parseNum (removeChar '$' (removeChar '$' s)) = parseNum (removeChar '$' s)
    rw [removeChar_idem]

/-- Witness for the amended C4 on the input `"$4.99"`. -/
theorem parse_price_strips_every_dollar_witness :
    parse_price (String.mk ('$' :: "4.99".data)) = some (mkRat 499 100) :=
  (parse_price_strips_every_dollar "4.99" (mkRat 499 100)).1 (by decide)

/-- C5 counterexample: on the input `"1k2"` the code removes the interior
`k` and parses `12.0`, while the claimed strip-one-trailing-suffix reading
yields null; the two disagree. -/
theorem parse_size_spec_divergence :
    parse_size "1k2" = some 12 ∧ parse_size_specModel "1k2" = none
    ∧ parse_size "1k2" ≠ parse_size_specModel "1k2" := by decide

/-- C5 (amended): `parse_size` removes every `M` and every `k` character
wherever they occur (so in particular a trailing unit suffix), applies no
unit conversion, and parses the remainder, returning null when the
remaining text is not numeric (e.g. `"Varies with device"`). -/
theorem parse_size_strips_every_unit (s : String) (q : ℚ) :
    (parseNum s = some q → parse_size (String.mk (s.data ++ ['M'])) = some q
      ∧ parse_size (String.mk (s.data ++ ['k'])) = some q)
    ∧ parse_size (removeChar 'M' s) = parse_size s
    ∧ parse_size (removeChar 'k' s) = parse_size s
    ∧ (parseNum (removeChar 'k' (removeChar 'M' s)) = none → parse_size s = none)
    ∧ parse_size "19M" = some 19 ∧ parse_size "512k" = some 512
    ∧ parse_size "Varies with device" = none := by
  refine ⟨?_, ?_, ?_, fun h => h, by decide, by decide, by decide⟩
  · intro h
    have hch : ∀ x ∈ s.data, x ≠ 'M' ∧ x ≠ 'k' := by
      intro x hx
      constructor <;> intro he <;> subst he <;>
        rcases parseNum_chars s q h _ hx with hd | hd | hd <;> exact absurd hd (by decide)
    have hM : s.data.filter (fun x => x ≠ 'M') = s.data :=
      List.filter_eq_self.2 (fun a ha => decide_eq_true (hch a ha).1)
    have hk : s.data.filter (fun x => x ≠ 'k') = s.data :=
      List.filter_eq_self.2 (fun a ha => decide_eq_true (hch a ha).2)
    have hs : String.mk s.data = s := by cases s; rfl
    constructor
    · show parseNum (removeChar 'k' (removeChar 'M' (String.mk (s.data ++ ['M'])))) = some q
      have e1 : removeChar 'M' (String.mk (s.data ++ ['M'])) = String.mk s.data := by
        show String.mk ((s.data ++ ['M']).filter (fun x => x ≠ 'M')) = String.mk s.data
        rw [List.filter_append, hM]
        simp
      rw [e1, hs, removeChar_eq_self 'k' s (fun x hx => (hch x hx).2)]
      exact h
    · show parseNum (removeChar 'k' (removeChar 'M' (String.mk (s.data ++ ['k'])))) = some q
      have e1 : removeChar 'M' (String.mk (s.data ++ ['k'])) = String.mk (s.data ++ ['k']) := by
        show String.mk ((s.data ++ ['k']).filter (fun x => x ≠ 'M')) = String.mk (s.data ++ ['k'])
        rw [List.filter_append, hM]
        simp
      have e2 : removeChar 'k' (String.mk (s.data ++ ['k'])) = String.mk s.data := by
        show String.mk ((s.data ++ ['k']).filter (fun x => x ≠ 'k')) = String.mk s.data
        rw [List.filter_append, hk]
        simp
      rw [e1, e2, hs]
      exact h
  · show parseNum (removeChar 'k' (removeChar 'M' (removeChar 'M' s))) =
      parseNum (removeChar 'k' (removeChar 'M' s))
    rw [removeChar_idem]
  · show parseNum (removeChar 'k' (removeChar 'M' (removeChar 'k' s))) =
      parseNum (removeChar 'k' (removeChar 'M' s))
    rw [removeChar_comm 'M' 'k' s, removeChar_idem]

/-- Witness for the amended C5 on the inputs `"19M"` and `"19k"`. -/
theorem parse_size_strips_every_unit_witness :
    parse_size (String.mk ("19".data ++ ['M'])) = some 19
    ∧ parse_size (String.mk ("19".data ++ ['k'])) = some 19 :=
  (parse_size_strips_every_unit "19" 19).1 (by decide)

/-- The maximum of a non-empty list of rationals exists, belongs to the
list and bounds it. -/
theorem listMax_cons_spec (xs : List ℚ) : ∀ (x : ℚ),
    ∃ m, listMax (x :: xs) = some m ∧ m ∈ x :: xs ∧ ∀ y ∈ x :: xs, y ≤ m := by
  induction xs with
  | nil =>
    intro x
    refine ⟨x, rfl, List.mem_singleton.2 rfl, ?_⟩
    intro y hy
    rcases List.mem_cons.1 hy with rfl | hy2
    · exact le_refl _
    · simp at hy2
  | cons b t ih =>
    intro x
    obtain ⟨m, hm, hmem, hle⟩ := ih (max x b)
    refine ⟨m, hm, ?_, ?_⟩
    · rcases List.mem_cons.1 hmem with rfl | hmt
      · rcases max_choice x b with h | h <;> rw [h]
        · exact List.mem_cons_self _ _
        · exact List.mem_cons_of_mem _ (List.mem_cons_self _ _)
      · exact List.mem_cons_of_mem _ (List.mem_cons_of_mem _ hmt)
    · intro y hy
      rcases List.mem_cons.1 hy with rfl | hy2
      · exact le_trans (le_max_left y b) (hle _ (List.mem_cons_self _ _))
      · rcases List.mem_cons.1 hy2 with rfl | hy3
        · exact le_trans (le_max_right x y) (hle _ (List.mem_cons_self _ _))
        · exact hle y (List.mem_cons_of_mem _ hy3)

/-- When some row has a non-null cell in a column, the column maximum
exists and is attained by a row of the table. -/
theorem colMax_attained (f : ParsedRecord → Option ℚ) (l : List ParsedRecord)
    (r0 : ParsedRecord) (p0 : ℚ) (hr0 : r0 ∈ l) (hp0 : f r0 = some p0) :
    ∃ m, listMax (l.filterMap f) = some m ∧ ∃ rm ∈ l, f rm = some m := by
  have hmem : p0 ∈ l.filterMap f := List.mem_filterMap.2 ⟨r0, hr0, hp0⟩
  rcases hfm : l.filterMap f with _ | ⟨x, xs⟩
  · rw [hfm] at hmem; simp at hmem
  · obtain ⟨m, hm, hmemm, _⟩ := listMax_cons_spec xs x
    refine ⟨m, hm, ?_⟩
    rw [← hfm] at hmemm
    exact List.mem_filterMap.1 hmemm

/-- C10: on every non-empty filtered subset of the pipeline output the set
of rows achieving the maximum price is non-empty, and likewise for the
maximum rating, so the "no paid app" / "no rated app" fallback branches
are unreachable there. -/
theorem max_price_rating_attained (raws : List RawRecord) (s : FilterSpec)
    (h : applyFilter s (load_and_transform_data raws) ≠ []) :
    mostExpensive (applyFilter s (load_and_transform_data raws)) ≠ []
    ∧ bestRated (applyFilter s (load_and_transform_data raws)) ≠ []
    ∧ mostExpensiveApp (applyFilter s (load_and_transform_data raws)) ≠ none
    ∧ bestRatedApp (applyFilter s (load_and_transform_data raws)) ≠ none := by
  obtain ⟨r0, hr0⟩ := List.exists_mem_of_ne_nil _ h
  have hload : r0 ∈ load_and_transform_data raws := (List.mem_filter.1 hr0).1
  obtain ⟨_, _, hrat, hpr⟩ := mem_load raws r0 hload
  obtain ⟨p0, hp0⟩ := Option.isSome_iff_exists.1 hpr
  obtain ⟨q0, hq0⟩ := Option.isSome_iff_exists.1 hrat
  obtain ⟨mp, hmp, rp, hrpmem, hrpval⟩ :=
    colMax_attained (fun r => r.price) _ r0 p0 hr0 hp0
  obtain ⟨mq, hmq, rq, hrqmem, hrqval⟩ :=
    colMax_attained (fun r => r.rating) _ r0 q0 hr0 hq0
  have hm1 : mostExpensive (applyFilter s (load_and_transform_data raws)) ≠ [] := by
    simp only [mostExpensive, maxPrice, hmp]
    exact List.ne_nil_of_mem (List.mem_filter.2 ⟨hrpmem, decide_eq_true hrpval⟩)
  have hm2 : bestRated (applyFilter s (load_and_transform_data raws)) ≠ [] := by
    simp only [bestRated, maxRating, hmq]
    exact List.ne_nil_of_mem (List.mem_filter.2 ⟨hrqmem, decide_eq_true hrqval⟩)
  refine ⟨hm1, hm2, ?_, ?_⟩
  · rcases hc : mostExpensive (applyFilter s (load_and_transform_data raws)) with _ | ⟨a, t⟩
    · exact absurd hc hm1
    · simp [mostExpensiveApp, hc]
  · rcases hc : bestRated (applyFilter s (load_and_transform_data raws)) with _ | ⟨a, t⟩
    · exact absurd hc hm2
    · simp [bestRatedApp, hc]

/-- Witness for C10 at a concrete one-row filtered table. -/
theorem max_price_rating_attained_witness :
    mostExpensive (applyFilter wideSpec (load_and_transform_data [rawPaid])) ≠ []
    ∧ bestRated (applyFilter wideSpec (load_and_transform_data [rawPaid])) ≠ []
    ∧ mostExpensiveApp (applyFilter wideSpec (load_and_transform_data [rawPaid])) ≠ none
    ∧ bestRatedApp (applyFilter wideSpec (load_and_transform_data [rawPaid])) ≠ none :=
  max_price_rating_attained [rawPaid] wideSpec (by decide)

/-- Every non-empty list admits an element maximizing any given
natural-valued function. -/
theorem exists_count_argmax {β : Type} (f : β → ℕ) : ∀ (cs : List β), cs ≠ [] →
    ∃ c ∈ cs, ∀ c2 ∈ cs, f c2 ≤ f c := by
  intro cs
  induction cs with
  | nil => intro h; exact absurd rfl h
  | cons a t ih =>
    intro _
    by_cases htn : t = []
    · subst htn
      refine ⟨a, List.mem_cons_self _ _, ?_⟩
      intro c2 hc2
      rcases List.mem_cons.1 hc2 with rfl | h2
      · exact le_refl _
      · simp at h2
    · obtain ⟨c, hc, hmax⟩ := ih htn
      by_cases hfa : f c ≤ f a
      · refine ⟨a, List.mem_cons_self _ _, ?_⟩
        intro c2 hc2
        rcases List.mem_cons.1 hc2 with rfl | h2
        · exact le_refl _
        · exact le_trans (hmax c2 h2) hfa
      · refine ⟨c, List.mem_cons_of_mem _ hc, ?_⟩
        intro c2 hc2
        rcases List.mem_cons.1 hc2 with rfl | h2
        · exact le_of_not_le hfa
        · exact hmax c2 h2

/-- What `find?` returns occurs no later than any other element satisfying
the predicate. -/
theorem find?_earliest {β : Type} [DecidableEq β] (p : β → Bool) :
    ∀ (l : List β) (a b : β), l.find? p = some a → b ∈ l → p b = true →
      l.indexOf a ≤ l.indexOf b := by
  intro l
  induction l with
  | nil => intro a b h; cases h
  | cons x t ih =>
    intro a b hfind hb hpb
    cases hpx : p x with
    | true =>
      rw [List.find?_cons_of_pos _ hpx] at hfind
      cases hfind
      rw [List.indexOf_cons_self]
      exact Nat.zero_le _
    | false =>
      rw [List.find?_cons_of_neg _ (by simp [hpx])] at hfind
      have hpa : p a = true := List.find?_some hfind
      have hax : x ≠ a := fun he => by rw [← he] at hpa; rw [hpa] at hpx; cases hpx
      have hbx : x ≠ b := fun he => by rw [← he] at hpb; rw [hpb] at hpx; cases hpx
      have hbt : b ∈ t := by
        rcases List.mem_cons.1 hb with rfl | h2
        · exact absurd rfl hbx
        · exact h2
      rw [List.indexOf_cons_ne t hax, List.indexOf_cons_ne t hbx]
      exact Nat.succ_le_succ (ih a b hfind hbt hpb)

/-- The head of the frequency table is a category of the list, has maximal
frequency, and among equal frequencies occurs first. -/
theorem topCategory_spec (l : List ParsedRecord) (h : l ≠ []) :
    ∃ c, topCategory l = some c
      ∧ c ∈ l.map (fun r => r.category)
      ∧ (∀ c2 ∈ l.map (fun r => r.category),
          (l.map (fun r => r.category)).count c2 ≤ (l.map (fun r => r.category)).count c)
      ∧ (∀ c2 ∈ l.map (fun r => r.category),
          (l.map (fun r => r.category)).count c2 = (l.map (fun r => r.category)).count c →
          (l.map (fun r => r.category)).indexOf c ≤ (l.map (fun r => r.category)).indexOf c2) := by
  have hne : l.map (fun r => r.category) ≠ [] := by
    intro he
    exact h (List.map_eq_nil_iff.1 he)
  obtain ⟨c0, hc0, hmax0⟩ :=
    exists_count_argmax (fun c => (l.map (fun r => r.category)).count c)
      (l.map (fun r => r.category)) hne
  have hex : ∃ x ∈ l.map (fun r => r.category),
      (fun c : String => decide (∀ c2 ∈ l.map (fun r : ParsedRecord => r.category),
        (l.map (fun r : ParsedRecord => r.category)).count c2 ≤
          (l.map (fun r : ParsedRecord => r.category)).count c)) x = true :=
    ⟨c0, hc0, decide_eq_true hmax0⟩
  obtain ⟨c, hc⟩ := Option.isSome_iff_exists.1 (List.find?_isSome.2 hex)
  have hmem : c ∈ l.map (fun r => r.category) := List.mem_of_find?_eq_some hc
  have hfs := List.find?_some hc
  have hmax : ∀ c2 ∈ l.map (fun r => r.category),
      (l.map (fun r => r.category)).count c2 ≤ (l.map (fun r => r.category)).count c :=
    of_decide_eq_true hfs
  refine ⟨c, hc, hmem, hmax, ?_⟩
  intro c2 hc2 hcnt
  have hp2 : (fun c3 : String => decide (∀ c4 ∈ l.map (fun r : ParsedRecord => r.category),
      (l.map (fun r : ParsedRecord => r.category)).count c4 ≤
        (l.map (fun r : ParsedRecord => r.category)).count c3)) c2
        = true := by
    refine decide_eq_true ?_
    intro c4 hc4
    rw [hcnt]
    exact hmax c4 hc4
  exact find?_earliest _ (l.map (fun r => r.category)) c c2 hc hc2 hp2

/-- C8 (amended): on every non-empty filtered subset the top-category
statistic returns a category of maximal frequency in the subset, and among
categories tying for the maximum it returns the one whose first occurrence
appears earliest in the filtered subset. -/
theorem top_category_max_frequency (tbl : List ParsedRecord) (s : FilterSpec)
    (h : applyFilter s tbl ≠ []) :
    ∃ c, topCategory (applyFilter s tbl) = some c
      ∧ c ∈ (applyFilter s tbl).map (fun r => r.category)
      ∧ (∀ c2 ∈ (applyFilter s tbl).map (fun r => r.category),
          ((applyFilter s tbl).map (fun r => r.category)).count c2 ≤
            ((applyFilter s tbl).map (fun r => r.category)).count c)
      ∧ (∀ c2 ∈ (applyFilter s tbl).map (fun r => r.category),
          ((applyFilter s tbl).map (fun r => r.category)).count c2 =
            ((applyFilter s tbl).map (fun r => r.category)).count c →
          ((applyFilter s tbl).map (fun r => r.category)).indexOf c ≤
            ((applyFilter s tbl).map (fun r => r.category)).indexOf c2) :=
  topCategory_spec (applyFilter s tbl) h

/-- Witness for the amended C8 at a concrete two-row filtered table. -/
theorem top_category_max_frequency_witness :
    ∃ c, topCategory (applyFilter wideSpec (load_and_transform_data [rawFree, rawPaid])) = some c
      ∧ c ∈ (applyFilter wideSpec (load_and_transform_data [rawFree, rawPaid])).map
          (fun r => r.category)
      ∧ (∀ c2 ∈ (applyFilter wideSpec (load_and_transform_data [rawFree, rawPaid])).map
            (fun r => r.category),
          ((applyFilter wideSpec (load_and_transform_data [rawFree, rawPaid])).map
              (fun r => r.category)).count c2 ≤
            ((applyFilter wideSpec (load_and_transform_data [rawFree, rawPaid])).map
              (fun r => r.category)).count c)
      ∧ (∀ c2 ∈ (applyFilter wideSpec (load_and_transform_data [rawFree, rawPaid])).map
            (fun r => r.category),
          ((applyFilter wideSpec (load_and_transform_data [rawFree, rawPaid])).map
              (fun r => r.category)).count c2 =
            ((applyFilter wideSpec (load_and_transform_data [rawFree, rawPaid])).map
              (fun r => r.category)).count c →
          ((applyFilter wideSpec (load_and_transform_data [rawFree, rawPaid])).map
              (fun r => r.category)).indexOf c ≤
            ((applyFilter wideSpec (load_and_transform_data [rawFree, rawPaid])).map
              (fun r => r.category)).indexOf c2) :=
  top_category_max_frequency (load_and_transform_data [rawFree, rawPaid]) wideSpec (by decide)

/-- C8 counterexample: with rows in categories `A` (filtered out), `B`,
`A` and a rating filter keeping the last two, categories `A` and `B` tie
in the filtered subset; `A` occurs first in the normalized table, yet the
code returns `B` — the tie is broken by first occurrence in the filtered
subset, not in the normalized table. -/
theorem top_category_tie_divergence :
    topCategory (applyFilter tieSpec
        (load_and_transform_data [rawTieA1, rawTieB, rawTieA2])) = some "B"
    ∧ topCategory (applyFilter tieSpec
        (load_and_transform_data [rawTieA1, rawTieB, rawTieA2])) ≠ some "A"
    ∧ ((applyFilter tieSpec (load_and_transform_data [rawTieA1, rawTieB, rawTieA2])).map
          (fun r => r.category)).count "A" =
        ((applyFilter tieSpec (load_and_transform_data [rawTieA1, rawTieB, rawTieA2])).map
          (fun r => r.category)).count "B"
    ∧ "A" ∈ (applyFilter tieSpec (load_and_transform_data [rawTieA1, rawTieB, rawTieA2])).map
          (fun r => r.category)
    ∧ ((load_and_transform_data [rawTieA1, rawTieB, rawTieA2]).map
          (fun r => r.category)).indexOf "A" <
        ((load_and_transform_data [rawTieA1, rawTieB, rawTieA2]).map
          (fun r => r.category)).indexOf "B" := by
  decide
